import Mathlib

/-!
Verification of the phonological analysis pipeline of the naming-eval
repository.

Characters are modelled as natural-number Unicode codepoints and strings as
lists of codepoints.  The Unicode normalization performed by the standard
library (`unicodedata.normalize`) is modelled on the character domain the
repository manipulates: the hiragana and katakana blocks, the voicing marks
U+3099..U+309C and their halfwidth forms U+FF9E/U+FF9F, the prolonged sound
mark U+30FC, and arbitrary other codepoints which NFKC leaves unchanged in
this domain (the halfwidth kana letters U+FF66..U+FF9D, which NFKC folds to
fullwidth katakana, are outside the modelled domain).  NFKC is modelled as
full decomposition (canonical pairs for precomposed voiced kana, the
compatibility decompositions of U+309B/U+309C and U+FF9E/U+FF9F, which are
the only Unicode codepoints whose single character NFKC image contains a
bare combining voicing mark) followed by canonical pairwise composition;
NFD as canonical decomposition only.
-/

namespace NamingEval

/-- The voicing mark characters: the combining marks U+3099 and U+309A, the
spacing marks U+309B and U+309C, and the halfwidth marks U+FF9E and U+FF9F.
These are exactly the codepoints whose NFKC image can contribute a bare
combining voicing mark. -/
def voicingMarks : List Nat := [0x3099, 0x309A, 0x309B, 0x309C, 0xFF9E, 0xFF9F]

/-- Canonical decomposition table restricted to the kana blocks: each entry is
a precomposed voiced or semi-voiced kana together with its base character and
combining mark, mirroring the Unicode character database rows for the
hiragana and katakana blocks. -/
def canonTable : List (Nat × Nat × Nat) :=
  [ (0x304C, 0x304B, 0x3099), (0x304E, 0x304D, 0x3099), (0x3050, 0x304F, 0x3099),
    (0x3052, 0x3051, 0x3099), (0x3054, 0x3053, 0x3099), (0x3056, 0x3055, 0x3099),
    (0x3058, 0x3057, 0x3099), (0x305A, 0x3059, 0x3099), (0x305C, 0x305B, 0x3099),
    (0x305E, 0x305D, 0x3099), (0x3060, 0x305F, 0x3099), (0x3062, 0x3061, 0x3099),
    (0x3065, 0x3064, 0x3099), (0x3067, 0x3066, 0x3099), (0x3069, 0x3068, 0x3099),
    (0x3070, 0x306F, 0x3099), (0x3071, 0x306F, 0x309A), (0x3073, 0x3072, 0x3099),
    (0x3074, 0x3072, 0x309A), (0x3076, 0x3075, 0x3099), (0x3077, 0x3075, 0x309A),
    (0x3079, 0x3078, 0x3099), (0x307A, 0x3078, 0x309A), (0x307C, 0x307B, 0x3099),
    (0x307D, 0x307B, 0x309A), (0x3094, 0x3046, 0x3099), (0x309E, 0x309D, 0x3099),
    (0x30AC, 0x30AB, 0x3099), (0x30AE, 0x30AD, 0x3099), (0x30B0, 0x30AF, 0x3099),
    (0x30B2, 0x30B1, 0x3099), (0x30B4, 0x30B3, 0x3099), (0x30B6, 0x30B5, 0x3099),
    (0x30B8, 0x30B7, 0x3099), (0x30BA, 0x30B9, 0x3099), (0x30BC, 0x30BB, 0x3099),
    (0x30BE, 0x30BD, 0x3099), (0x30C0, 0x30BF, 0x3099), (0x30C2, 0x30C1, 0x3099),
    (0x30C5, 0x30C4, 0x3099), (0x30C7, 0x30C6, 0x3099), (0x30C9, 0x30C8, 0x3099),
    (0x30D0, 0x30CF, 0x3099), (0x30D1, 0x30CF, 0x309A), (0x30D3, 0x30D2, 0x3099),
    (0x30D4, 0x30D2, 0x309A), (0x30D6, 0x30D5, 0x3099), (0x30D7, 0x30D5, 0x309A),
    (0x30D9, 0x30D8, 0x3099), (0x30DA, 0x30D8, 0x309A), (0x30DC, 0x30DB, 0x3099),
    (0x30DD, 0x30DB, 0x309A), (0x30F4, 0x30A6, 0x3099), (0x30FE, 0x30FD, 0x3099) ]

/-- Canonical decomposition of a codepoint into a base and mark, when it has
one in the modelled domain. -/
def canonPair (c : Nat) : Option (Nat × Nat) :=
  (canonTable.find? (fun e => e.1 == c)).map (fun e => e.2)

/-- Compatibility decompositions in the modelled domain: the spacing voicing
marks U+309B and U+309C decompose to a space followed by the corresponding
combining mark, and the halfwidth voicing marks U+FF9E and U+FF9F decompose
to the bare combining mark alone. -/
def compatDecomp (c : Nat) : Option (List Nat) :=
  if c = 0x309B then some [0x20, 0x3099]
  else if c = 0x309C then some [0x20, 0x309A]
  else if c = 0xFF9E then some [0x3099]
  else if c = 0xFF9F then some [0x309A]
  else none

/-- Full (NFKD) decomposition of one codepoint in the modelled domain. -/
def kdDecomp (c : Nat) : List Nat :=
  match canonPair c with
  | some bm => [bm.1, bm.2]
  | none => (compatDecomp c).getD [c]

/-- Canonical (NFD) decomposition of one codepoint in the modelled domain. -/
def dDecomp (c : Nat) : List Nat :=
  match canonPair c with
  | some bm => [bm.1, bm.2]
  | none => [c]

/-- Canonical composition of a base and a combining mark, when the pair has a
precomposed form. -/
def composePair (b m : Nat) : Option Nat :=
  (canonTable.find? (fun e => e.2.1 == b && e.2.2 == m)).map (fun e => e.1)

/-- Canonical composition scan holding the current starter character. -/
def composeGo (a : Nat) : List Nat → List Nat
  | [] => [a]
  | b :: rest =>
    match composePair a b with
    | some c => composeGo c rest
    | none => a :: composeGo b rest

/-- Canonical composition pass over a fully decomposed codepoint sequence. -/
def composeAll : List Nat → List Nat
  | [] => []
  | a :: rest => composeGo a rest

/-- Concatenated full decomposition of a codepoint sequence. -/
def kdDecompAll : List Nat → List Nat
  | [] => []
  | c :: rest => kdDecomp c ++ kdDecompAll rest

/-- Model of NFKC normalization on the modelled character domain: full
decomposition followed by canonical composition. -/
def nfkc (s : List Nat) : List Nat :=
  composeAll (kdDecompAll s)

/-- Codepoint translation of the KATAKANA_TO_HIRA table of features.py: the
katakana block U+30A1..U+30F3 is shifted down by 0x60 and U+30F4 is mapped to
U+3094; every other codepoint is untouched. -/
def kataToHiraChar (c : Nat) : Nat :=
  if 0x30A1 ≤ c ∧ c ≤ 0x30F3 then c - 0x60
  else if c = 0x30F4 then 0x3094
  else c

/-- The character filter of to_hira: keep the hiragana block U+3040..U+309F
and the prolonged sound mark U+30FC, drop everything else. -/
def isKeptKana (c : Nat) : Bool :=
  (0x3040 ≤ c && c ≤ 0x309F) || c == 0x30FC

/-- Model of to_hira of features.py: NFKC normalization, then katakana to
hiragana translation, then removal of every character outside the hiragana
block and the prolonged sound mark. -/
def to_hira (s : List Nat) : List Nat :=
  (nfkc s).map kataToHiraChar |>.filter isKeptKana

/-- The VOWEL_OF dictionary of features.py: base hiragana to vowel letter. -/
def VOWEL_OF : List (Nat × String) :=
  [ (0x3042, "a"), (0x3044, "i"), (0x3046, "u"), (0x3048, "e"), (0x304A, "o"),
    (0x304B, "a"), (0x304D, "i"), (0x304F, "u"), (0x3051, "e"), (0x3053, "o"),
    (0x3055, "a"), (0x3057, "i"), (0x3059, "u"), (0x305B, "e"), (0x305D, "o"),
    (0x305F, "a"), (0x3061, "i"), (0x3064, "u"), (0x3066, "e"), (0x3068, "o"),
    (0x306A, "a"), (0x306B, "i"), (0x306C, "u"), (0x306D, "e"), (0x306E, "o"),
    (0x306F, "a"), (0x3072, "i"), (0x3075, "u"), (0x3078, "e"), (0x307B, "o"),
    (0x307E, "a"), (0x307F, "i"), (0x3080, "u"), (0x3081, "e"), (0x3082, "o"),
    (0x3084, "a"), (0x3086, "u"), (0x3088, "o"),
    (0x3089, "a"), (0x308A, "i"), (0x308B, "u"), (0x308C, "e"), (0x308D, "o"),
    (0x308F, "a"), (0x3090, "i"), (0x3091, "e"), (0x3092, "o"),
    (0x3094, "u"),
    (0x3041, "a"), (0x3043, "i"), (0x3045, "u"), (0x3047, "e"), (0x3049, "o") ]

/-- Dictionary get on the vowel table, mirroring VOWEL_OF.get of features.py. -/
def vowelOf (c : Nat) : Option String :=
  (VOWEL_OF.find? (fun e => e.1 == c)).map (fun e => e.2)

/-- The SMALL_VOWELS set of features.py. -/
def SMALL_VOWELS : List Nat :=
  [0x3083, 0x3085, 0x3087, 0x3041, 0x3043, 0x3045, 0x3047, 0x3049, 0x308E]

/-- Model of base_hira_without_diacritics of features.py: NFD decompose the
character and return the first codepoint in the range U+3041..U+3096 or equal
to U+3094, falling back to the character itself. -/
def base_hira_without_diacritics (c : Nat) : Nat :=
  ((dDecomp c).find? (fun x => (0x3041 ≤ x && x ≤ 0x3096) || x == 0x3094)).getD c

/-- The Mora dataclass of features.py. -/
structure Mora where
  surface : List Nat
  vowel : Option String
  is_special : Bool
  is_yoon : Bool
  deriving Repr, DecidableEq

/-- The scanning loop of kana_to_moras of features.py, with the running
last_vowel state made explicit as the first argument. -/
def kanaToMorasAux : Option String → List Nat → List Mora
  | _, [] => []
  | lastVowel, c :: rest =>
    if c = 0x30FC then
      let v := lastVowel.getD "a"
      ⟨[c], some v, true, false⟩ :: kanaToMorasAux lastVowel rest
    else if c = 0x3063 then
      ⟨[c], none, true, false⟩ :: kanaToMorasAux lastVowel rest
    else if c = 0x3093 then
      ⟨[c], none, true, false⟩ :: kanaToMorasAux none rest
    else
      match rest with
      | c2 :: rest2 =>
        if c2 ∈ SMALL_VOWELS then
          let v := vowelOf (base_hira_without_diacritics c)
          ⟨[c, c2], v, false, true⟩ :: kanaToMorasAux v rest2
        else
          let v := vowelOf (base_hira_without_diacritics c)
          ⟨[c], v, false, false⟩ :: kanaToMorasAux v (c2 :: rest2)
      | [] =>
        let v := vowelOf (base_hira_without_diacritics c)
        [⟨[c], v, false, false⟩]
termination_by _ l => l.length

/-- Model of kana_to_moras of features.py. -/
def kana_to_moras (hira : List Nat) : List Mora :=
  kanaToMorasAux none hira

/-- Concatenation of the surface fields of a mora sequence. -/
def surfacesConcat (ms : List Mora) : List Nat :=
  (ms.map Mora.surface).flatten

/-- Model of the safe_ratio helper of features.py: num divided by den, or 0
when den is zero. -/
def safe_ratio (num den : Nat) : ℚ :=
  if den = 0 then 0 else (num : ℚ) / (den : ℚ)

/-- Model of the f_len_from_M helper of features.py: 1 up to min_ok, 0 from
max_ok on, linear interpolation in between. -/
def f_len_from_M (M min_ok max_ok : Nat) : ℚ :=
  if M ≤ min_ok then 1
  else if max_ok ≤ M then 0
  else 1 - ((M : ℚ) - (min_ok : ℚ)) / ((max_ok : ℚ) - (min_ok : ℚ))

/-- The dictionary returned by extract_features of features.py: the four
feature entries plus the diagnostic mora count and joined mora string. -/
structure ExtractFeats where
  f_len : ℚ
  f_open : ℚ
  f_sp : ℚ
  f_yoon : ℚ
  M : ℚ
  mora_str : List Nat
  deriving Repr, DecidableEq

/-- Model of extract_features of features.py. -/
def extract_features (name : List Nat) : ExtractFeats :=
  let hira := to_hira name
  let moras := kana_to_moras hira
  let M := moras.length
  let n_special := (moras.filter (fun m => m.is_special)).length
  let n_yoon := (moras.filter (fun m => m.is_yoon)).length
  let n_open := (moras.filter (fun m => m.vowel.isSome)).length
  let ratio_sp := safe_ratio n_special M
  let ratio_y := safe_ratio n_yoon M
  let ratio_op := safe_ratio n_open M
  { f_len := f_len_from_M M 2 9
    f_open := ratio_op
    f_sp := 1 - ratio_sp
    f_yoon := 1 - ratio_y
    M := (M : ℚ)
    mora_str := ((moras.map Mora.surface).intersperse [0x7C]).flatten }

/-- First-match association lookup on a list of string keyed entries,
mirroring Python dictionary indexing (keys are unique in every dictionary the
code builds). -/
def lookupVal : List (String × ℝ) → String → Option ℝ
  | [], _ => none
  | p :: t, k => if p.1 = k then some p.2 else lookupVal t k

/-- Python dict.get with default 0.0. -/
noncomputable def dictGet (d : List (String × ℝ)) (k : String) : ℝ :=
  (lookupVal d k).getD 0

/-- The DEFAULT_WEIGHTS dictionary of features.py. -/
noncomputable def DEFAULT_WEIGHTS : List (String × ℝ) :=
  [("f_len", 0.18), ("f_open", 0.16), ("f_sp", 0.16), ("f_yoon", 0.12)]

/-- Model of the weight normalization helper of features.py: clamp each
weight at 0, then divide by the sum, with the sum replaced by 1 when it is 0
(the Python expression sum or 1.0). -/
noncomputable def normalize_weights (w : List (String × ℝ)) : List (String × ℝ) :=
  let nonneg := w.map (fun p => (p.1, max 0 p.2))
  let s0 := (nonneg.map (fun p => p.2)).sum
  let s := if s0 = 0 then 1 else s0
  nonneg.map (fun p => (p.1, p.2 / s))

/-- The 1e-12 numerical floor used by the geometric mode of evaluate_epi. -/
noncomputable def epsFloor : ℝ := 1e-12

/-- Model of evaluate_epi of features.py.  A None weight dictionary or an
empty one falls back to DEFAULT_WEIGHTS (Python truthiness); indexing a
missing recognized key in the normalized weight dictionary raises KeyError in
Python, modelled as a none result. -/
noncomputable def evaluate_epi (feats : List (String × ℝ))
    (weights : Option (List (String × ℝ))) (mode : String) : Option ℝ :=
  let f : String → ℝ := fun k => max 0 (min 1 (dictGet feats k))
  let wdict := match weights with
    | some (p :: t) => p :: t
    | _ => DEFAULT_WEIGHTS
  let w := normalize_weights wdict
  (lookupVal w "f_len").bind fun wl =>
  (lookupVal w "f_open").bind fun wo =>
  (lookupVal w "f_sp").bind fun wsp =>
  (lookupVal w "f_yoon").bind fun wy =>
  let epi := if mode = "geo" then
      Real.exp (wl * Real.log (max epsFloor (f "f_len"))
        + wo * Real.log (max epsFloor (f "f_open"))
        + wsp * Real.log (max epsFloor (f "f_sp"))
        + wy * Real.log (max epsFloor (f "f_yoon")))
    else
      wl * f "f_len" + wo * f "f_open" + wsp * f "f_sp" + wy * f "f_yoon"
  some (max 0 (min 1 epi))

/-- The clamp helper shared by epi.py and the plane scorer. -/
noncomputable def clamp01 (x : ℝ) : ℝ :=
  if x < 0 then 0 else if 1 < x then 1 else x

/-- The katakana special moras with no vowel, the SPECIALS_NO_VOWEL set. -/
def SPECIALS_NO_VOWEL : List (List Nat) := [[0x30F3], [0x30C3]]

/-- All katakana special moras, the SPECIALS_ALL set. -/
def SPECIALS_ALL : List (List Nat) := [[0x30F3], [0x30C3], [0x30FC]]

/-- The VOICED_CHARS set of epi.py and the plane scorer (katakana). -/
def VOICED_CHARS : List Nat :=
  [0x30AC, 0x30AE, 0x30B0, 0x30B2, 0x30B4, 0x30B6, 0x30B8, 0x30BA, 0x30BC,
   0x30BE, 0x30C0, 0x30C2, 0x30C5, 0x30C7, 0x30C9, 0x30D0, 0x30D3, 0x30D6,
   0x30D9, 0x30DC]

/-- The SEMI_VOICED_CHARS set of epi.py (katakana pa row). -/
def SEMI_VOICED_CHARS : List Nat := [0x30D1, 0x30D4, 0x30D7, 0x30DA, 0x30DD]

/-- Model of f_len of epi.py: the length penalty, 0 at the ideal range and
rising toward 1 away from it; the sigma parameter stands for the module
level LEN_SIGMA configuration value. -/
noncomputable def f_len (mora_count low high : Nat) (sigma : ℝ) : ℝ :=
  if mora_count ≤ 0 then 1
  else
    let d : ℝ :=
      if low ≤ mora_count ∧ mora_count ≤ high then 0
      else if mora_count < low then (low : ℝ) - (mora_count : ℝ)
      else (mora_count : ℝ) - (high : ℝ)
    let s := max 1e-6 sigma
    clamp01 (1 - Real.exp (-(d * d) / (2 * s * s)))

/-- Model of f_open of epi.py: the open syllable deficiency penalty. -/
noncomputable def f_open (mora_list : List (List Nat)) : ℝ :=
  let M := mora_list.length
  if M = 0 then 1
  else
    let open_count := (mora_list.filter (fun m => m ∉ SPECIALS_NO_VOWEL)).length
    clamp01 (1 - (open_count : ℝ) / (M : ℝ))

/-- Model of f_sp of epi.py: the special mora ratio, with an empty list
denominator replaced by 1 (the Python expression len or 1). -/
noncomputable def f_sp (mora_list : List (List Nat)) : ℝ :=
  let M := if mora_list.length = 0 then 1 else mora_list.length
  let sp := (mora_list.filter (fun m => m ∈ SPECIALS_ALL)).length
  (sp : ℝ) / (M : ℝ)

/-- Model of f_yoon of epi.py: the contracted sound ratio. -/
noncomputable def f_yoon (mora_list : List (List Nat)) : ℝ :=
  let M := if mora_list.length = 0 then 1 else mora_list.length
  ((mora_list.filter (fun m => 1 < m.length)).length : ℝ) / (M : ℝ)

/-- Model of f_voiced of epi.py: the voiced character ratio over the raw
normalized string. -/
noncomputable def f_voiced (kana : List Nat) : ℝ :=
  if kana = [] then 0
  else ((kana.filter (fun ch => ch ∈ VOICED_CHARS)).length : ℝ) / (kana.length : ℝ)

/-- Model of f_semi_voiced of epi.py: the semi voiced character ratio. -/
noncomputable def f_semi_voiced (kana : List Nat) : ℝ :=
  if kana = [] then 0
  else ((kana.filter (fun ch => ch ∈ SEMI_VOICED_CHARS)).length : ℝ) / (kana.length : ℝ)

/-- Model of epi_weighted of epi.py.  The w argument stands for the
epi_weights table of the module level YAML configuration and sigma for its
LEN_SIGMA value; both are ambient module state in the source. -/
noncomputable def epi_weighted (w : List (String × ℝ)) (sigma : ℝ)
    (mora_list : List (List Nat)) (kana : List Nat) : ℝ :=
  let scores : List (String × ℝ) :=
    [("f_len", f_len mora_list.length 2 4 sigma),
     ("f_open", f_open mora_list),
     ("f_sp", f_sp mora_list),
     ("f_yoon", f_yoon mora_list),
     ("f_voiced", f_voiced kana),
     ("f_semi_voiced", f_semi_voiced kana)]
  let num := (scores.map (fun p => dictGet w p.1 * p.2)).sum
  let den := (scores.map (fun p => dictGet w p.1)).sum
  if 0 < den then num / den else 0

namespace plane

/-- Modelled from the library interface of jaconv.hira2kata: shift the
hiragana block and iteration marks up by 0x60 into the katakana block. -/
def hira2kata (c : Nat) : Nat :=
  if (0x3041 ≤ c ∧ c ≤ 0x3096) ∨ c = 0x309D ∨ c = 0x309E then c + 0x60 else c

/-- Modelled from the library interface of jaconv.normalize restricted to the
modelled character domain: NFKC normalization; the extra replacements jaconv
adds, such as the wave dash characters being mapped to the prolonged sound
mark and other punctuation tweaks, touch only characters outside the
modelled domain. The plane normalize_kana then converts hiragana to
katakana. -/
def normalize_kana (name : List Nat) : List Nat :=
  (nfkc name).map hira2kata

/-- The ALL_SMALL set of the plane scorer (katakana small kana). -/
def ALL_SMALL : List Nat :=
  [0x30E3, 0x30E5, 0x30E7, 0x30A1, 0x30A3, 0x30A5, 0x30A7, 0x30A9, 0x30EE]

/-- The VOWELS set of the plane scorer. -/
def VOWELS : List Nat := [0x30A2, 0x30A4, 0x30A6, 0x30A8, 0x30AA]

/-- The first row string of the plane get_vowel helper, exactly the
characters of the source literal. -/
def rowA : List Nat :=
  [0x30A2, 0x30A4, 0x30AB, 0x30B5, 0x30BF, 0x30CA, 0x30CF, 0x30DE, 0x30E4,
   0x30E9, 0x30EF, 0x30AC, 0x30B6, 0x30C0, 0x30D0, 0x30D1]

/-- The second row string of the plane get_vowel helper. -/
def rowI : List Nat :=
  [0x30A4, 0x30AD, 0x30B7, 0x30C1, 0x30CB, 0x30D2, 0x30DF, 0x30EA, 0x30AE,
   0x30B8, 0x30C2, 0x30D3, 0x30D4]

/-- The third row string of the plane get_vowel helper. -/
def rowU : List Nat :=
  [0x30A6, 0x30AF, 0x30B9, 0x30C4, 0x30CC, 0x30D5, 0x30E0, 0x30E6, 0x30EB,
   0x30B0, 0x30BA, 0x30C5, 0x30D6, 0x30D7]

/-- The fourth row string of the plane get_vowel helper. -/
def rowE : List Nat :=
  [0x30A8, 0x30B1, 0x30BB, 0x30C6, 0x30CD, 0x30D8, 0x30E1, 0x30EC, 0x30B2,
   0x30BC, 0x30C7, 0x30D9, 0x30DA]

/-- The fifth row string of the plane get_vowel helper. -/
def rowO : List Nat :=
  [0x30AA, 0x30B3, 0x30BD, 0x30C8, 0x30CE, 0x30DB, 0x30E2, 0x30E8, 0x30ED,
   0x30F2, 0x30B4, 0x30BE, 0x30C9, 0x30DC, 0x30DD]

/-- Model of the plane get_vowel helper: NFD decompose, take the first
codepoint, and classify it by row; the result is the codepoint of the row
vowel. -/
def get_vowel (ch : List Nat) : Option Nat :=
  match (ch.map dDecomp).flatten with
  | [] => none
  | base :: _ =>
    if base ∈ rowA then some 0x30A2
    else if base ∈ rowI then some 0x30A4
    else if base ∈ rowU then some 0x30A6
    else if base ∈ rowE then some 0x30A8
    else if base ∈ rowO then some 0x30AA
    else none

/-- Model of analyze_mora_phoneme of the plane scorer: the scanning loop
returning the mora surfaces, phoneme counts and per mora vowels. -/
def analyze_mora_phoneme : List Nat → List (List Nat) × List Nat × List (Option Nat)
  | [] => ([], [], [])
  | c :: rest =>
    if c = 0x30C3 ∨ c = 0x30F3 ∨ c = 0x30FC then
      let r := analyze_mora_phoneme rest
      ([c] :: r.1, 1 :: r.2.1, none :: r.2.2)
    else
      match rest with
      | c2 :: rest2 =>
        if c2 ∈ ALL_SMALL then
          let r := analyze_mora_phoneme rest2
          ([c, c2] :: r.1, 3 :: r.2.1, get_vowel [c2] :: r.2.2)
        else
          let r := analyze_mora_phoneme (c2 :: rest2)
          ([c] :: r.1, (if c ∈ VOWELS then 1 else 2) :: r.2.1, get_vowel [c] :: r.2.2)
      | [] => ([[c]], [if c ∈ VOWELS then 1 else 2], [get_vowel [c]])
termination_by l => l.length

/-- The WEIGHTS dictionary of the plane scorer. -/
noncomputable def WEIGHTS : List (String × ℝ) :=
  [("f_len", 0.20), ("f_open", 0.20), ("f_sp", 0.15), ("f_yoon", 0.15),
   ("f_voiced", 0.15), ("f_semi", 0.00), ("f_vowel", 0.10), ("f_density", 0.05)]

/-- The LEN_SIGMA constant of the plane scorer. -/
noncomputable def LEN_SIGMA : ℝ := 1.2

/-- A value of the heterogeneous result dictionary of the plane scorer:
either a number or a string. -/
inductive PVal where
  | num (r : ℝ)
  | str (s : List Nat)

/-- Model of calculate_epi_plane of the plane scorer, returning the result
dictionary as an ordered key value list. -/
noncomputable def calculate_epi_plane (name : List Nat) : List (String × PVal) :=
  let kana := normalize_kana name
  let r := analyze_mora_phoneme kana
  let moras := r.1
  let p_counts := r.2.1
  let mora_vowels := r.2.2
  let M := moras.length
  if M = 0 then
    [("f_len", .num 0), ("f_open", .num 0), ("f_sp", .num 0), ("f_yoon", .num 0),
     ("f_voiced", .num 0), ("f_semi", .num 0), ("f_vowel", .num 0),
     ("f_density", .num 0), ("EPI_Score", .num 0), ("M", .num 0), ("kana", .str kana)]
  else
    let d : ℝ :=
      if 2 ≤ M ∧ M ≤ 4 then 0
      else if M < 2 then (2 : ℝ) - (M : ℝ)
      else (M : ℝ) - 4
    let val_len := clamp01 (1 - Real.exp (-(d * d) / (2 * LEN_SIGMA * LEN_SIGMA)))
    let open_count := (moras.filter (fun m => m ∉ SPECIALS_NO_VOWEL)).length
    let val_open := (open_count : ℝ) / (M : ℝ)
    let sp_count := (moras.filter (fun m => m ∈ SPECIALS_ALL)).length
    let val_sp := (sp_count : ℝ) / (M : ℝ)
    let yoon_count := (moras.filter (fun m => 1 < m.length)).length
    let val_yoon := (yoon_count : ℝ) / (M : ℝ)
    let voiced_count := (kana.filter (fun ch => ch ∈ VOICED_CHARS)).length
    let val_voiced : ℝ :=
      if 0 < kana.length then (voiced_count : ℝ) / (kana.length : ℝ) else 0
    let unique_vowels := (mora_vowels.filterMap id).dedup
    let val_vowel : ℝ := if 0 < M then (unique_vowels.length : ℝ) / (M : ℝ) else 0
    let avg_phoneme : ℝ := (p_counts.sum : ℝ) / (M : ℝ)
    let val_density := clamp01 ((avg_phoneme - 1) / 2)
    let score :=
      dictGet WEIGHTS "f_len" * val_len +
      dictGet WEIGHTS "f_open" * val_open +
      dictGet WEIGHTS "f_sp" * (1 - val_sp) +
      dictGet WEIGHTS "f_yoon" * (1 - val_yoon) +
      dictGet WEIGHTS "f_voiced" * (1 - val_voiced) +
      dictGet WEIGHTS "f_vowel" * (1 - val_vowel) +
      dictGet WEIGHTS "f_density" * (1 - val_density)
    [("EPI_Score", .num score), ("M", .num (M : ℝ)), ("kana", .str kana),
     ("f_len", .num val_len), ("f_open", .num val_open), ("f_sp", .num (1 - val_sp)),
     ("f_yoon", .num (1 - val_yoon)), ("f_voiced", .num (1 - val_voiced)),
     ("f_vowel", .num val_vowel), ("f_density", .num (1 - val_density))]

end plane

@[simp] theorem surfacesConcat_nil : surfacesConcat [] = [] := rfl

@[simp] theorem surfacesConcat_cons (m : Mora) (ms : List Mora) :
    surfacesConcat (m :: ms) = m.surface ++ surfacesConcat ms := rfl

@[simp] theorem kanaToMorasAux_nil (lv : Option String) : kanaToMorasAux lv [] = [] := by
  rw [kanaToMorasAux.eq_def]

/-- Step behavior of the segmenter loop on the prolonged sound mark: it emits
a special mora carrying the running last vowel, with the fixed fallback
vowel a, and leaves the last vowel state unchanged. -/
@[simp] theorem kanaToMorasAux_choon (lv : Option String) (rest : List Nat) :
    kanaToMorasAux lv (0x30FC :: rest) =
      ⟨[0x30FC], some (lv.getD "a"), true, false⟩ :: kanaToMorasAux lv rest := by
  rw [kanaToMorasAux.eq_def]; simp

/-- Step behavior of the segmenter loop on the geminate marker: it emits a
vowelless special mora and leaves the last vowel state unchanged. -/
@[simp] theorem kanaToMorasAux_sokuon (lv : Option String) (rest : List Nat) :
    kanaToMorasAux lv (0x3063 :: rest) =
      ⟨[0x3063], none, true, false⟩ :: kanaToMorasAux lv rest := by
  rw [kanaToMorasAux.eq_def]; simp

/-- Step behavior of the segmenter loop on the moraic nasal: it emits a
vowelless special mora and resets the last vowel state. -/
@[simp] theorem kanaToMorasAux_moraic_n (lv : Option String) (rest : List Nat) :
    kanaToMorasAux lv (0x3093 :: rest) =
      ⟨[0x3093], none, true, false⟩ :: kanaToMorasAux none rest := by
  rw [kanaToMorasAux.eq_def]; simp

/-- Step behavior of the segmenter loop on a base character followed by a
small combiner: the two characters form one mora whose vowel is the base
character vowel, and the last vowel state becomes that vowel. -/
theorem kanaToMorasAux_yoon (lv : Option String) (c c2 : Nat) (rest2 : List Nat)
    (h1 : c ≠ 0x30FC) (h2 : c ≠ 0x3063) (h3 : c ≠ 0x3093) (hsm : c2 ∈ SMALL_VOWELS) :
    kanaToMorasAux lv (c :: c2 :: rest2) =
      ⟨[c, c2], vowelOf (base_hira_without_diacritics c), false, true⟩ ::
        kanaToMorasAux (vowelOf (base_hira_without_diacritics c)) rest2 := by
  rw [kanaToMorasAux.eq_def]; simp [h1, h2, h3, hsm]

/-- Step behavior of the segmenter loop on an ordinary character with no
following combiner. -/
theorem kanaToMorasAux_default2 (lv : Option String) (c c2 : Nat) (rest2 : List Nat)
    (h1 : c ≠ 0x30FC) (h2 : c ≠ 0x3063) (h3 : c ≠ 0x3093) (hsm : c2 ∉ SMALL_VOWELS) :
    kanaToMorasAux lv (c :: c2 :: rest2) =
      ⟨[c], vowelOf (base_hira_without_diacritics c), false, false⟩ ::
        kanaToMorasAux (vowelOf (base_hira_without_diacritics c)) (c2 :: rest2) := by
  rw [kanaToMorasAux.eq_def]; simp [h1, h2, h3, hsm]

/-- Step behavior of the segmenter loop on a final ordinary character. -/
theorem kanaToMorasAux_single (lv : Option String) (c : Nat)
    (h1 : c ≠ 0x30FC) (h2 : c ≠ 0x3063) (h3 : c ≠ 0x3093) :
    kanaToMorasAux lv [c] =
      [⟨[c], vowelOf (base_hira_without_diacritics c), false, false⟩] := by
  rw [kanaToMorasAux.eq_def]; simp [h1, h2, h3]

/-- The segmenter loop is partition forming for every state: the surfaces of
the emitted moras concatenate back to the scanned input. -/
theorem kanaToMorasAux_partition (lv : Option String) (h : List Nat) :
    surfacesConcat (kanaToMorasAux lv h) = h := by
  induction lv, h using kanaToMorasAux.induct <;>
    simp_all [kanaToMorasAux_yoon, kanaToMorasAux_default2, kanaToMorasAux_single]

/-- C1: for every input string, concatenating the surface fields of the moras
produced by kana_to_moras applied to the normalized string to_hira s, in
order, reconstructs exactly the normalized kana string, with no gaps or
overlaps. -/
theorem C1_mora_partition_invariant (s : List Nat) :
    surfacesConcat (kana_to_moras (to_hira s)) = to_hira s :=
  kanaToMorasAux_partition none (to_hira s)

/-- C10: when a geminate marker is immediately followed by an elongation mark,
the geminate marker emits a vowelless special mora and leaves the running
last vowel state unchanged, and the following elongation mora receives that
last vowel, with the fixed fallback vowel a when no vowel bearing mora
precedes; illustrated on こっー (elongation inherits o across the geminate)
and on っー at string start (fallback a). -/
theorem C10_geminate_then_elongation :
    (∀ (lv : Option String) (rest : List Nat),
      kanaToMorasAux lv (0x3063 :: 0x30FC :: rest) =
        ⟨[0x3063], none, true, false⟩ ::
          ⟨[0x30FC], some (lv.getD "a"), true, false⟩ :: kanaToMorasAux lv rest) ∧
    kana_to_moras [0x3053, 0x3063, 0x30FC] =
      [⟨[0x3053], some "o", false, false⟩, ⟨[0x3063], none, true, false⟩,
       ⟨[0x30FC], some "o", true, false⟩] ∧
    kana_to_moras [0x3063, 0x30FC] =
      [⟨[0x3063], none, true, false⟩, ⟨[0x30FC], some "a", true, false⟩] := by
  refine ⟨fun lv rest => by simp, ?_, ?_⟩
  · simp [kana_to_moras, kanaToMorasAux_default2, SMALL_VOWELS]
    decide
  · simp [kana_to_moras]

/-- C5 counterexample: on the normalized input き ゃ the segmenter emits one
combined mora whose vowel is i, the vowel of the base character き, while the
combiner character ゃ itself has no vowel table entry at all; the claim that
the emitted vowel is derived from the combiner character rather than the base
is therefore false at this input. -/
theorem C5_counterexample :
    kana_to_moras [0x304D, 0x3083] = [⟨[0x304D, 0x3083], some "i", false, true⟩] ∧
    vowelOf (base_hira_without_diacritics 0x304D) = some "i" ∧
    vowelOf 0x3083 = none ∧ (some "i" : Option String) ≠ some "a" := by
  refine ⟨?_, by decide, by decide, by decide⟩
  simp [kana_to_moras, kanaToMorasAux_yoon, SMALL_VOWELS]
  decide

/-- C5 (amended): when a base character is immediately followed by a small
combiner character, the two character span is emitted as one mora with
isYoon true, but in kana_to_moras its vowel is the vowel of the base
character after diacritic removal, not the combiner vowel, and lastVowel is
updated to that base vowel; in the plane analyzer the recorded vowel is
get_vowel applied to the combiner character. -/
theorem C5_amended_yoon_vowel :
    (∀ (lv : Option String) (c c2 : Nat) (rest2 : List Nat),
      c ≠ 0x30FC → c ≠ 0x3063 → c ≠ 0x3093 → c2 ∈ SMALL_VOWELS →
      kanaToMorasAux lv (c :: c2 :: rest2) =
        ⟨[c, c2], vowelOf (base_hira_without_diacritics c), false, true⟩ ::
          kanaToMorasAux (vowelOf (base_hira_without_diacritics c)) rest2) ∧
    (∀ (c c2 : Nat) (rest2 : List Nat),
      ¬(c = 0x30C3 ∨ c = 0x30F3 ∨ c = 0x30FC) → c2 ∈ plane.ALL_SMALL →
      plane.analyze_mora_phoneme (c :: c2 :: rest2) =
        ([c, c2] :: (plane.analyze_mora_phoneme rest2).1,
         3 :: (plane.analyze_mora_phoneme rest2).2.1,
         plane.get_vowel [c2] :: (plane.analyze_mora_phoneme rest2).2.2)) := by
  constructor
  · intro lv c c2 rest2 h1 h2 h3 hsm
    exact kanaToMorasAux_yoon lv c c2 rest2 h1 h2 h3 hsm
  · intro c c2 rest2 hc hsm
    rw [plane.analyze_mora_phoneme.eq_def]
    simp [hc, hsm]

/-- Witness for the amended C5 theorem at the concrete input き ゃ. -/
theorem C5_amended_yoon_vowel_witness :
    ((0x304D : Nat) ≠ 0x30FC ∧ (0x304D : Nat) ≠ 0x3063 ∧ (0x304D : Nat) ≠ 0x3093 ∧
      (0x3083 : Nat) ∈ SMALL_VOWELS) ∧
    kanaToMorasAux none [0x304D, 0x3083] =
      [⟨[0x304D, 0x3083], vowelOf (base_hira_without_diacritics 0x304D), false, true⟩] := by
  refine ⟨by decide, ?_⟩
  rw [C5_amended_yoon_vowel.1 none 0x304D 0x3083 [] (by decide) (by decide) (by decide)
    (by decide)]
  simp


theorem canonTable_entry_facts : ∀ e ∈ canonTable, e.2.2 ∈ voicingMarks ∧
    e.2.1 ∉ voicingMarks ∧ canonPair e.2.1 = none ∧ compatDecomp e.2.1 = none ∧
    composePair e.2.1 e.2.2 = some e.1 := by decide

theorem composePair_eq_none (a b : Nat) (hb : b ∉ voicingMarks) :
    composePair a b = none := by
  unfold composePair
  cases hf : canonTable.find? (fun e => e.2.1 == a && e.2.2 == b) with
  | none => rfl
  | some e =>
    exfalso
    have hp := List.find?_some hf
    have hmem := List.mem_of_find?_eq_some hf
    simp only [Bool.and_eq_true, beq_iff_eq] at hp
    exact hb (hp.2 ▸ (canonTable_entry_facts e hmem).1)

theorem canonPair_eq_some (c : Nat) (bm : Nat × Nat) (h : canonPair c = some bm) :
    (c, bm) ∈ canonTable ∧ bm.2 ∈ voicingMarks ∧ bm.1 ∉ voicingMarks ∧
      canonPair bm.1 = none ∧ compatDecomp bm.1 = none ∧
      composePair bm.1 bm.2 = some c := by
  unfold canonPair at h
  rcases Option.map_eq_some'.mp h with ⟨e, hf, he⟩
  have hp := List.find?_some hf
  have hmem := List.mem_of_find?_eq_some hf
  simp only [beq_iff_eq] at hp
  have hfacts := canonTable_entry_facts e hmem
  subst he; subst hp
  refine ⟨hmem, hfacts.1, hfacts.2.1, hfacts.2.2.1, hfacts.2.2.2.1, hfacts.2.2.2.2⟩

theorem compatDecomp_eq_none (c : Nat) (h : c ∉ voicingMarks) :
    compatDecomp c = none := by
  unfold compatDecomp
  have h1 : c ≠ 0x309B := by intro he; exact h (by rw [he]; decide)
  have h2 : c ≠ 0x309C := by intro he; exact h (by rw [he]; decide)
  have h3 : c ≠ 0xFF9E := by intro he; exact h (by rw [he]; decide)
  have h4 : c ≠ 0xFF9F := by intro he; exact h (by rw [he]; decide)
  simp [h1, h2, h3, h4]

theorem kdDecomp_struct (c : Nat) (hc : c ∉ voicingMarks) :
    kdDecomp c = [c] ∨ ∃ b m, kdDecomp c = [b, m] ∧ m ∈ voicingMarks ∧
      b ∉ voicingMarks ∧ kdDecomp b = [b] ∧ composePair b m = some c := by
  cases h : canonPair c with
  | none =>
    left
    unfold kdDecomp
    rw [h, compatDecomp_eq_none c hc]
    rfl
  | some bm =>
    right
    obtain ⟨-, hm, hb, hcp, hcd, hcomp⟩ := canonPair_eq_some c bm h
    refine ⟨bm.1, bm.2, ?_, hm, hb, ?_, hcomp⟩
    · unfold kdDecomp; rw [h]
    · unfold kdDecomp; rw [hcp, hcd]; rfl

theorem composeGo_kdDecompAll (s : List Nat) (hs : ∀ x ∈ s, x ∉ voicingMarks) :
    ∀ a, a ∉ voicingMarks → composeGo a (kdDecompAll s) = a :: s := by
  induction s with
  | nil => intro a _; rfl
  | cons c t ih =>
    intro a ha
    have hc : c ∉ voicingMarks := hs c (by simp)
    have ht : ∀ x ∈ t, x ∉ voicingMarks := fun x hx => hs x (by simp [hx])
    show composeGo a (kdDecomp c ++ kdDecompAll t) = a :: c :: t
    rcases kdDecomp_struct c hc with h | ⟨b, m, h, hm, hb, -, hcomp⟩
    · rw [h]
      simp only [List.cons_append, List.nil_append]
      simp [composeGo, composePair_eq_none a c hc, ih ht c hc]
    · rw [h]
      simp only [List.cons_append, List.nil_append]
      simp [composeGo, composePair_eq_none a b hb, hcomp, ih ht c hc]

theorem nfkc_eq_self (s : List Nat) (hs : ∀ x ∈ s, x ∉ voicingMarks) :
    nfkc s = s := by
  cases s with
  | nil => rfl
  | cons c t =>
    have hc : c ∉ voicingMarks := hs c (by simp)
    have ht : ∀ x ∈ t, x ∉ voicingMarks := fun x hx => hs x (by simp [hx])
    show composeAll (kdDecomp c ++ kdDecompAll t) = c :: t
    rcases kdDecomp_struct c hc with h | ⟨b, m, h, hm, hb, -, hcomp⟩
    · rw [h, List.singleton_append]
      all_goals exact composeGo_kdDecompAll t ht c hc
    · rw [h]
      simp only [List.cons_append, List.nil_append]
      show composeGo b (m :: kdDecompAll t) = c :: t
      simp [composeGo, hcomp, composeGo_kdDecompAll t ht c hc]

theorem isKeptKana_iff (x : Nat) :
    isKeptKana x = true ↔ ((0x3040 ≤ x ∧ x ≤ 0x309F) ∨ x = 0x30FC) := by
  simp [isKeptKana, Bool.or_eq_true, Bool.and_eq_true, decide_eq_true_eq]

theorem kataToHiraChar_not_mark (y : Nat) (hy : y ∉ voicingMarks) :
    kataToHiraChar y ∉ voicingMarks := by
  unfold kataToHiraChar
  split_ifs with h1 h2
  · intro hmem
    simp [voicingMarks] at hmem
    omega
  · intro hmem
    simp [voicingMarks] at hmem
  · exact hy

theorem kataToHiraChar_of_kept (x : Nat) (hx : isKeptKana x = true) :
    kataToHiraChar x = x := by
  rw [isKeptKana_iff] at hx
  unfold kataToHiraChar
  split_ifs with h1 h2 <;> omega

theorem to_hira_chars (s : List Nat) (hs : ∀ x ∈ s, x ∉ voicingMarks) :
    ∀ x ∈ to_hira s, x ∉ voicingMarks ∧ isKeptKana x = true := by
  intro x hx
  unfold to_hira at hx
  rw [nfkc_eq_self s hs] at hx
  have hk := List.of_mem_filter hx
  have hmem := List.mem_of_mem_filter hx
  rcases List.mem_map.mp hmem with ⟨y, hy, rfl⟩
  exact ⟨kataToHiraChar_not_mark y (hs y hy), hk⟩

/-- C9 (amended): normalization by to_hira is idempotent on every input
string containing no voicing mark character (combining U+3099/U+309A,
spacing U+309B/U+309C, or halfwidth U+FF9E/U+FF9F, the only codepoints whose
NFKC image contributes a bare combining mark); an unattached voicing mark
can survive the first pass next to a character it composes with, so a second
pass is not always the identity. -/
theorem C9_amended_to_hira_idempotent (s : List Nat) (hs : ∀ x ∈ s, x ∉ voicingMarks) :
    to_hira (to_hira s) = to_hira s := by
  have hchars := to_hira_chars s hs
  have hmarkfree : ∀ x ∈ to_hira s, x ∉ voicingMarks := fun x hx => (hchars x hx).1
  show List.filter isKeptKana (List.map kataToHiraChar (nfkc (to_hira s))) = to_hira s
  rw [nfkc_eq_self (to_hira s) hmarkfree]
  rw [List.map_congr_left (fun x hx => kataToHiraChar_of_kept x (hchars x hx).2)]
  rw [List.map_id']
  exact List.filter_eq_self.mpr (fun x hx => (hchars x hx).2)


/-- C9 counterexample: on the input か q ゛ the first to_hira pass strips the
intervening character and leaves か followed by a bare combining voiced mark,
and a second pass composes the pair into が, so normalize(normalize(x)) and
normalize(x) differ at this input; the same happens with the halfwidth
voiced mark U+FF9E in place of ゛. -/
theorem C9_counterexample :
    (to_hira (to_hira [0x304B, 0x71, 0x309B]) ≠ to_hira [0x304B, 0x71, 0x309B]) ∧
    (to_hira (to_hira [0x304B, 0x71, 0xFF9E]) ≠ to_hira [0x304B, 0x71, 0xFF9E]) := by
  decide

/-- Witness for the amended C9 theorem at the concrete mark free input カ か. -/
theorem C9_amended_to_hira_idempotent_witness :
    (∀ x ∈ [0x30AB, 0x304B], x ∉ voicingMarks) ∧
    to_hira (to_hira [0x30AB, 0x304B]) = to_hira [0x30AB, 0x304B] :=
  ⟨by decide, C9_amended_to_hira_idempotent [0x30AB, 0x304B] (by decide)⟩

/-- C2: for every feature dictionary with values in the unit interval and
every weight dictionary with non negative weights, in both the sum and the
geometric composition mode, whenever the composer returns a score it lies in
the interval from 0 to 1: the final clamp makes this hold unconditionally. -/
theorem C2_composite_score_range (feats : List (String × ℝ))
    (weights : Option (List (String × ℝ))) (mode : String) (r : ℝ)
    (hf : ∀ p ∈ feats, 0 ≤ p.2 ∧ p.2 ≤ 1)
    (hw : ∀ l, weights = some l → ∀ p ∈ l, 0 ≤ p.2)
    (hm : mode = "sum" ∨ mode = "geo")
    (h : evaluate_epi feats weights mode = some r) :
    0 ≤ r ∧ r ≤ 1 := by
  unfold evaluate_epi at h
  simp only [Option.bind_eq_some] at h
  obtain ⟨wl, -, wo, -, wsp, -, wy, -, h⟩ := h
  obtain rfl : max 0 (min 1 _) = r := Option.some.inj h
  exact ⟨le_max_left 0 _, max_le zero_le_one (min_le_left 1 _)⟩

/-- Witness for the C2 range theorem on a concrete evaluation. -/
theorem C2_composite_score_range_witness :
    (∀ p ∈ ([] : List (String × ℝ)), 0 ≤ p.2 ∧ p.2 ≤ 1) ∧
    (∀ l, (some [("f_len", (1:ℝ)), ("f_open", 1), ("f_sp", 1), ("f_yoon", 1)] :
        Option (List (String × ℝ))) = some l → ∀ p ∈ l, 0 ≤ p.2) ∧
    evaluate_epi [] (some [("f_len", 1), ("f_open", 1), ("f_sp", 1), ("f_yoon", 1)]) "sum"
      = some 0 ∧ (0 ≤ (0:ℝ) ∧ (0:ℝ) ≤ 1) := by
  have hwpos : ∀ l, (some [("f_len", (1:ℝ)), ("f_open", 1), ("f_sp", 1), ("f_yoon", 1)] :
      Option (List (String × ℝ))) = some l → ∀ p ∈ l, 0 ≤ p.2 := by
    intro l hl
    obtain rfl : l = [("f_len", (1:ℝ)), ("f_open", 1), ("f_sp", 1), ("f_yoon", 1)] :=
      (Option.some.inj hl).symm
    intro p hp
    simp at hp
    rcases hp with h | h | h | h <;> simp [h]
  have heval : evaluate_epi [] (some [("f_len", (1:ℝ)), ("f_open", 1), ("f_sp", 1),
      ("f_yoon", 1)]) "sum" = some 0 := by
    simp [evaluate_epi, normalize_weights, lookupVal, dictGet]
  exact ⟨by simp, hwpos, heval,
    C2_composite_score_range [] _ "sum" 0 (by simp) hwpos (Or.inl rfl) heval⟩

/-- C3 counterexample: with an all zero weight dictionary, whose clamped raw
sum is 0, the geometric mode returns 1, not 0: every normalized weight is 0,
the weighted log sum is 0 and exp 0 = 1 survives the final clamp. -/
theorem C3_counterexample :
    evaluate_epi [] (some [("f_len", (0:ℝ)), ("f_open", 0), ("f_sp", 0), ("f_yoon", 0)]) "geo"
      = some 1 ∧ (1:ℝ) ≠ 0 := by
  constructor
  · simp [evaluate_epi, normalize_weights, lookupVal, dictGet, Real.exp_zero,
      min_eq_right (zero_le_one' ℝ)]
  · norm_num

/-- C3 (amended): when the raw sum of the non negative clamped weights is 0,
the sum mode returns 0 but the geometric mode returns 1, and epi_weighted
returns 0; in all cases the zero sum guard keeps the division well defined
and no undefined value is produced. -/
theorem C3_amended_zero_weight_sum :
    (∀ (feats : List (String × ℝ)) (w1 w2 w3 w4 : ℝ),
      max 0 w1 + max 0 w2 + max 0 w3 + max 0 w4 = 0 →
      evaluate_epi feats
          (some [("f_len", w1), ("f_open", w2), ("f_sp", w3), ("f_yoon", w4)]) "sum"
        = some 0 ∧
      evaluate_epi feats
          (some [("f_len", w1), ("f_open", w2), ("f_sp", w3), ("f_yoon", w4)]) "geo"
        = some 1) ∧
    (∀ (w : List (String × ℝ)) (sigma : ℝ) (moras : List (List Nat)) (kana : List Nat),
      max 0 (dictGet w "f_len") + max 0 (dictGet w "f_open") + max 0 (dictGet w "f_sp") +
        max 0 (dictGet w "f_yoon") + max 0 (dictGet w "f_voiced") +
        max 0 (dictGet w "f_semi_voiced") = 0 →
      epi_weighted w sigma moras kana = 0) := by
  constructor
  · intro feats w1 w2 w3 w4 hsum
    have l1 : (0:ℝ) ≤ max 0 w1 := le_max_left 0 w1
    have l2 : (0:ℝ) ≤ max 0 w2 := le_max_left 0 w2
    have l3 : (0:ℝ) ≤ max 0 w3 := le_max_left 0 w3
    have l4 : (0:ℝ) ≤ max 0 w4 := le_max_left 0 w4
    have h1 : max 0 w1 = 0 := by linarith
    have h2 : max 0 w2 = 0 := by linarith
    have h3 : max 0 w3 = 0 := by linarith
    have h4 : max 0 w4 = 0 := by linarith
    constructor <;>
      simp [evaluate_epi, normalize_weights, lookupVal, dictGet, h1, h2, h3, h4,
        Real.exp_zero, min_eq_right (zero_le_one' ℝ)]
  · intro w sigma moras kana hsum
    have l1 : (0:ℝ) ≤ max 0 (dictGet w "f_len") := le_max_left _ _
    have l2 : (0:ℝ) ≤ max 0 (dictGet w "f_open") := le_max_left _ _
    have l3 : (0:ℝ) ≤ max 0 (dictGet w "f_sp") := le_max_left _ _
    have l4 : (0:ℝ) ≤ max 0 (dictGet w "f_yoon") := le_max_left _ _
    have l5 : (0:ℝ) ≤ max 0 (dictGet w "f_voiced") := le_max_left _ _
    have l6 : (0:ℝ) ≤ max 0 (dictGet w "f_semi_voiced") := le_max_left _ _
    have g1 : dictGet w "f_len" ≤ 0 := by
      have := le_max_right 0 (dictGet w "f_len"); linarith
    have g2 : dictGet w "f_open" ≤ 0 := by
      have := le_max_right 0 (dictGet w "f_open"); linarith
    have g3 : dictGet w "f_sp" ≤ 0 := by
      have := le_max_right 0 (dictGet w "f_sp"); linarith
    have g4 : dictGet w "f_yoon" ≤ 0 := by
      have := le_max_right 0 (dictGet w "f_yoon"); linarith
    have g5 : dictGet w "f_voiced" ≤ 0 := by
      have := le_max_right 0 (dictGet w "f_voiced"); linarith
    have g6 : dictGet w "f_semi_voiced" ≤ 0 := by
      have := le_max_right 0 (dictGet w "f_semi_voiced"); linarith
    unfold epi_weighted
    simp only [List.map_cons, List.map_nil, List.sum_cons, List.sum_nil]
    rw [if_neg (by linarith)]

/-- Witness for the amended C3 theorem at all zero weights. -/
theorem C3_amended_zero_weight_sum_witness :
    (max 0 (0:ℝ) + max 0 (0:ℝ) + max 0 (0:ℝ) + max 0 (0:ℝ) = 0) ∧
    evaluate_epi [] (some [("f_len", (0:ℝ)), ("f_open", 0), ("f_sp", 0), ("f_yoon", 0)]) "sum"
      = some 0 ∧
    evaluate_epi [] (some [("f_len", (0:ℝ)), ("f_open", 0), ("f_sp", 0), ("f_yoon", 0)]) "geo"
      = some 1 ∧
    epi_weighted [] 1 [] [] = 0 := by
  have hz : max 0 (0:ℝ) + max 0 (0:ℝ) + max 0 (0:ℝ) + max 0 (0:ℝ) = 0 := by simp
  have hmain := C3_amended_zero_weight_sum.1 [] 0 0 0 0 hz
  refine ⟨hz, hmain.1, hmain.2, ?_⟩
  exact C3_amended_zero_weight_sum.2 [] 1 [] [] (by simp [dictGet, lookupVal])

/-- The normalized default weight dictionary of features.py. -/
theorem normalize_weights_DEFAULT : normalize_weights DEFAULT_WEIGHTS =
    [("f_len", (0.18:ℝ)/0.62), ("f_open", (0.16:ℝ)/0.62),
     ("f_sp", (0.16:ℝ)/0.62), ("f_yoon", (0.12:ℝ)/0.62)] := by
  unfold normalize_weights DEFAULT_WEIGHTS
  simp only [List.map_cons, List.map_nil, List.sum_cons, List.sum_nil]
  rw [max_eq_right (by norm_num : (0:ℝ) ≤ 0.18), max_eq_right (by norm_num : (0:ℝ) ≤ 0.16),
    max_eq_right (by norm_num : (0:ℝ) ≤ 0.12)]
  rw [if_neg (by norm_num : ¬((0.18:ℝ) + (0.16 + (0.16 + (0.12 + 0))) = 0))]
  norm_num

/-- C7 counterexample: a feature dictionary uniformly equal to 0 under the
default weights in geometric mode evaluates to the epsilon floor 1e-12, not
to the constant 0, because every feature is floored at epsilon before the
logarithm. -/
theorem C7_counterexample :
    evaluate_epi [("f_len", (0:ℝ)), ("f_open", 0), ("f_sp", 0), ("f_yoon", 0)] none "geo"
      = some epsFloor ∧ epsFloor ≠ 0 := by
  have heps : (0:ℝ) < epsFloor := by norm_num [epsFloor]
  constructor
  · norm_num +decide [evaluate_epi, normalize_weights, DEFAULT_WEIGHTS, lookupVal, dictGet]
    rw [max_eq_left (le_of_lt heps)]
    rw [show (9:ℝ)/31 * Real.log epsFloor + 8/31 * Real.log epsFloor + 8/31 * Real.log epsFloor
        + 6/31 * Real.log epsFloor = Real.log epsFloor from by ring_nf]
    rw [Real.exp_log heps]
    rw [min_eq_right (by norm_num [epsFloor] : epsFloor ≤ (1:ℝ))]
    rw [max_eq_right (le_of_lt heps)]
  · exact ne_of_gt heps

/-- Structural expansion of evaluate_epi on a nonempty explicit weight
dictionary; holds by definitional reduction. -/
theorem evaluate_epi_some_cons (feats : List (String × ℝ)) (p : String × ℝ)
    (t : List (String × ℝ)) (mode : String) :
    evaluate_epi feats (some (p :: t)) mode =
      ((lookupVal (normalize_weights (p :: t)) "f_len").bind fun wl =>
       (lookupVal (normalize_weights (p :: t)) "f_open").bind fun wo =>
       (lookupVal (normalize_weights (p :: t)) "f_sp").bind fun wsp =>
       (lookupVal (normalize_weights (p :: t)) "f_yoon").bind fun wy =>
       some (max 0 (min 1 (if mode = "geo" then
          Real.exp (wl * Real.log (max epsFloor (max 0 (min 1 (dictGet feats "f_len"))))
            + wo * Real.log (max epsFloor (max 0 (min 1 (dictGet feats "f_open"))))
            + wsp * Real.log (max epsFloor (max 0 (min 1 (dictGet feats "f_sp"))))
            + wy * Real.log (max epsFloor (max 0 (min 1 (dictGet feats "f_yoon")))))
        else
          wl * max 0 (min 1 (dictGet feats "f_len"))
            + wo * max 0 (min 1 (dictGet feats "f_open"))
            + wsp * max 0 (min 1 (dictGet feats "f_sp"))
            + wy * max 0 (min 1 (dictGet feats "f_yoon")))))) := rfl

/-- C7 (amended): if every feature value equals the same constant c with
epsilon ≤ c ≤ 1 and the weight dictionary carries exactly the four
recognized names with non negative weights of positive sum, both composition
modes return exactly c. -/
theorem C7_amended_uniform_features (c w1 w2 w3 w4 : ℝ)
    (hc1 : epsFloor ≤ c) (hc2 : c ≤ 1)
    (h1 : 0 ≤ w1) (h2 : 0 ≤ w2) (h3 : 0 ≤ w3) (h4 : 0 ≤ w4)
    (hpos : 0 < w1 + w2 + w3 + w4) :
    evaluate_epi [("f_len", c), ("f_open", c), ("f_sp", c), ("f_yoon", c)]
        (some [("f_len", w1), ("f_open", w2), ("f_sp", w3), ("f_yoon", w4)]) "sum"
      = some c ∧
    evaluate_epi [("f_len", c), ("f_open", c), ("f_sp", c), ("f_yoon", c)]
        (some [("f_len", w1), ("f_open", w2), ("f_sp", w3), ("f_yoon", w4)]) "geo"
      = some c := by
  have hc0 : (0:ℝ) ≤ c := le_trans (by norm_num [epsFloor]) hc1
  have hcpos : (0:ℝ) < c := lt_of_lt_of_le (by norm_num [epsFloor]) hc1
  have hS0 : w1 + (w2 + (w3 + w4)) ≠ 0 := by intro h; linarith
  have hnw : normalize_weights [("f_len", w1), ("f_open", w2), ("f_sp", w3), ("f_yoon", w4)]
      = [("f_len", w1 / (w1 + (w2 + (w3 + w4)))),
         ("f_open", w2 / (w1 + (w2 + (w3 + w4)))),
         ("f_sp", w3 / (w1 + (w2 + (w3 + w4)))),
         ("f_yoon", w4 / (w1 + (w2 + (w3 + w4))))] := by
    unfold normalize_weights
    simp only [List.map_cons, List.map_nil, List.sum_cons, List.sum_nil, add_zero]
    rw [max_eq_right h1, max_eq_right h2, max_eq_right h3, max_eq_right h4]
    rw [if_neg hS0]
  have key : ∀ L : ℝ, w1 / (w1 + (w2 + (w3 + w4))) * L
      + w2 / (w1 + (w2 + (w3 + w4))) * L
      + w3 / (w1 + (w2 + (w3 + w4))) * L
      + w4 / (w1 + (w2 + (w3 + w4))) * L = L := by
    intro L
    rw [div_mul_eq_mul_div, div_mul_eq_mul_div, div_mul_eq_mul_div, div_mul_eq_mul_div,
      div_add_div_same, div_add_div_same, div_add_div_same]
    rw [show w1 * L + w2 * L + w3 * L + w4 * L = (w1 + (w2 + (w3 + w4))) * L from by ring]
    rw [mul_comm, mul_div_assoc, div_self hS0, mul_one]
  constructor
  · rw [evaluate_epi_some_cons, hnw]
    simp +decide [lookupVal, dictGet, min_eq_right hc2, max_eq_right hc0, key c]
  · rw [evaluate_epi_some_cons, hnw]
    simp +decide [lookupVal, dictGet, min_eq_right hc2, max_eq_right hc0,
      max_eq_right hc1, key (Real.log c), Real.exp_log hcpos]

/-- Witness for the amended C7 theorem at c one half and unit weights. -/
theorem C7_amended_uniform_features_witness :
    (epsFloor ≤ (1/2:ℝ) ∧ (1/2:ℝ) ≤ 1 ∧ (0:ℝ) ≤ 1 ∧ (0:ℝ) < 1 + 1 + 1 + 1) ∧
    evaluate_epi [("f_len", (1/2:ℝ)), ("f_open", 1/2), ("f_sp", 1/2), ("f_yoon", 1/2)]
        (some [("f_len", (1:ℝ)), ("f_open", 1), ("f_sp", 1), ("f_yoon", 1)]) "sum"
      = some (1/2) ∧
    evaluate_epi [("f_len", (1/2:ℝ)), ("f_open", 1/2), ("f_sp", 1/2), ("f_yoon", 1/2)]
        (some [("f_len", (1:ℝ)), ("f_open", 1), ("f_sp", 1), ("f_yoon", 1)]) "geo"
      = some (1/2) := by
  have hmain := C7_amended_uniform_features (1/2) 1 1 1 1
    (by norm_num [epsFloor]) (by norm_num) (by norm_num) (by norm_num) (by norm_num)
    (by norm_num) (by norm_num)
  exact ⟨⟨by norm_num [epsFloor], by norm_num, by norm_num, by norm_num⟩, hmain.1, hmain.2⟩

/-- Weight normalization only rescales values, so a key is present in the
normalized dictionary exactly when it is present in the raw one. -/
theorem lookupVal_mapmap_isSome (s : ℝ) (l : List (String × ℝ)) (k : String) :
    (lookupVal (List.map (fun p => (p.1, p.2 / s))
        (List.map (fun p => (p.1, 0 ⊔ p.2)) l)) k).isSome
      = (lookupVal l k).isSome := by
  induction l with
  | nil => rfl
  | cons p t ih =>
    simp only [List.map_cons, lookupVal]
    split_ifs with h
    · rfl
    · exact ih

theorem lookupVal_normalize_isSome (l : List (String × ℝ)) (k : String) :
    (lookupVal (normalize_weights l) k).isSome = (lookupVal l k).isSome := by
  simp only [normalize_weights]
  exact lookupVal_mapmap_isSome _ l k

/-- C8 counterexample: a nonempty weight dictionary missing the recognized
name f_open yields no score at all (a KeyError in the source), and adding an
unrecognized weight junk to an otherwise fixed dictionary changes the score
from 1 to one half, so unrecognized names are not ignored. -/
theorem C8_counterexample :
    evaluate_epi [] (some [("f_len", (1:ℝ))]) "sum" = none ∧
    evaluate_epi [("f_len", (1:ℝ)), ("f_open", 1), ("f_sp", 1), ("f_yoon", 1)]
        (some [("f_len", (1:ℝ)), ("f_open", 1), ("f_sp", 1), ("f_yoon", 1)]) "sum"
      = some 1 ∧
    evaluate_epi [("f_len", (1:ℝ)), ("f_open", 1), ("f_sp", 1), ("f_yoon", 1)]
        (some [("f_len", (1:ℝ)), ("f_open", 1), ("f_sp", 1), ("f_yoon", 1), ("junk", 4)])
        "sum"
      = some (1/2) ∧ (some (1:ℝ)) ≠ (some (1/2:ℝ)) := by
  refine ⟨?_, ?_, ?_, by norm_num⟩
  · simp +decide [evaluate_epi, normalize_weights, lookupVal]
  · norm_num +decide [evaluate_epi, normalize_weights, lookupVal, dictGet,
      max_eq_right (zero_le_one' ℝ), min_eq_right (le_refl (1:ℝ))]
  · norm_num +decide [evaluate_epi, normalize_weights, lookupVal, dictGet,
      max_eq_right (zero_le_one' ℝ), max_eq_right (by norm_num : (0:ℝ) ≤ 4),
      min_eq_right (le_refl (1:ℝ)),
      min_eq_right (by norm_num : (1/2:ℝ) ≤ 1),
      max_eq_right (by norm_num : (0:ℝ) ≤ 1/2)]

/-- C8 (amended): negative weights are clamped to 0; a nonempty weight
dictionary missing a recognized feature name produces no score (KeyError);
and whenever all four recognized names are present the composer does return
a score.  Unrecognized names still enter the normalizing sum, so they can
change the returned score, as the counterexample shows. -/
theorem C8_amended_weight_handling :
    (∀ (feats : List (String × ℝ)) (k : String) (v : ℝ) (rest : List (String × ℝ))
        (mode : String),
      evaluate_epi feats (some ((k, v) :: rest)) mode
        = evaluate_epi feats (some ((k, max 0 v) :: rest)) mode) ∧
    (∀ (feats w : List (String × ℝ)) (mode : String),
      lookupVal w "f_len" = none →
      evaluate_epi feats (some w) mode = none ∨ w = []) ∧
    (∀ (feats w : List (String × ℝ)) (mode : String),
      lookupVal w "f_len" ≠ none → lookupVal w "f_open" ≠ none →
      lookupVal w "f_sp" ≠ none → lookupVal w "f_yoon" ≠ none →
      (evaluate_epi feats (some w) mode).isSome = true) := by
  refine ⟨?_, ?_, ?_⟩
  · intro feats k v rest mode
    have hnw : normalize_weights ((k, v) :: rest) = normalize_weights ((k, max 0 v) :: rest) := by
      simp only [normalize_weights, List.map_cons]
      rw [← max_assoc, max_self]
    rw [evaluate_epi_some_cons, evaluate_epi_some_cons, hnw]
  · intro feats w mode hnone
    cases w with
    | nil => exact Or.inr rfl
    | cons p t =>
      left
      have h : lookupVal (normalize_weights (p :: t)) "f_len" = none := by
        rw [← Option.not_isSome_iff_eq_none, lookupVal_normalize_isSome, hnone]
        simp
      rw [evaluate_epi_some_cons, h]
      rfl
  · intro feats w mode h1 h2 h3 h4
    cases w with
    | nil => exact absurd rfl h1
    | cons p t =>
      obtain ⟨v1, hv1⟩ := Option.isSome_iff_exists.mp
        (by rw [lookupVal_normalize_isSome]; exact Option.ne_none_iff_isSome.mp h1)
      obtain ⟨v2, hv2⟩ := Option.isSome_iff_exists.mp
        (by rw [lookupVal_normalize_isSome]; exact Option.ne_none_iff_isSome.mp h2)
      obtain ⟨v3, hv3⟩ := Option.isSome_iff_exists.mp
        (by rw [lookupVal_normalize_isSome]; exact Option.ne_none_iff_isSome.mp h3)
      obtain ⟨v4, hv4⟩ := Option.isSome_iff_exists.mp
        (by rw [lookupVal_normalize_isSome]; exact Option.ne_none_iff_isSome.mp h4)
      rw [evaluate_epi_some_cons, hv1, hv2, hv3, hv4]
      rfl

/-- Witness for the amended C8 theorem at concrete weight dictionaries. -/
theorem C8_amended_weight_handling_witness :
    evaluate_epi [] (some [("f_len", (-1:ℝ)), ("f_open", 1), ("f_sp", 1), ("f_yoon", 1)]) "sum"
      = evaluate_epi [] (some [("f_len", max 0 (-1:ℝ)), ("f_open", 1), ("f_sp", 1),
        ("f_yoon", 1)]) "sum" ∧
    (lookupVal [("f_open", (1:ℝ))] "f_len" = none) ∧
    (evaluate_epi [] (some [("f_open", (1:ℝ))]) "sum" = none ∨
      ([("f_open", (1:ℝ))] : List (String × ℝ)) = []) ∧
    (evaluate_epi [] (some [("f_len", (1:ℝ)), ("f_open", 1), ("f_sp", 1), ("f_yoon", 1)])
      "sum").isSome = true := by
  have hnone : lookupVal [("f_open", (1:ℝ))] "f_len" = none := by simp +decide [lookupVal]
  refine ⟨C8_amended_weight_handling.1 [] "f_len" (-1) _ "sum", hnone,
    C8_amended_weight_handling.2.1 [] _ "sum" hnone,
    C8_amended_weight_handling.2.2 [] _ "sum" ?_ ?_ ?_ ?_⟩ <;>
    simp +decide [lookupVal]

/-- C6 counterexample: at the in range mora count 3, the exp based length
feature f_len of epi.py evaluates to 0, not 1, and the linear variant of
features.py evaluates to 6/7, not 1; both contradict the claimed value
exp(0) = 1 inside the ideal range. -/
theorem C6_counterexample :
    f_len 3 2 4 1 = 0 ∧ (0:ℝ) ≠ 1 ∧ f_len_from_M 3 2 9 = 6/7 ∧ ((6:ℚ)/7) ≠ 1 := by
  refine ⟨?_, by norm_num, ?_, by norm_num⟩
  · norm_num [f_len, clamp01, Real.exp_zero]
  · norm_num [f_len_from_M]

/-- C6 (amended): the exp based length feature is the penalty
clamp01(1 - exp(-d^2 / (2 sigma^2))), so every positive mora count inside
the configured ideal range yields exactly 0, for every sigma. -/
theorem C6_amended_length_feature (M low high : Nat) (sigma : ℝ)
    (hM : 1 ≤ M) (hlow : low ≤ M) (hhigh : M ≤ high) :
    f_len M low high sigma = 0 := by
  unfold f_len
  rw [if_neg (by omega : ¬(M ≤ 0)), if_pos ⟨hlow, hhigh⟩]
  norm_num [clamp01, Real.exp_zero]

/-- Witness for the amended C6 theorem at mora count 3 inside the default
range with the plane sigma. -/
theorem C6_amended_length_feature_witness :
    (1 ≤ 3 ∧ 2 ≤ 3 ∧ 3 ≤ 4) ∧ f_len 3 2 4 (1.2:ℝ) = 0 :=
  ⟨by decide, C6_amended_length_feature 3 2 4 1.2 (by decide) (by decide) (by decide)⟩

/-- C4 counterexample: on the empty input, extract_features returns the
vector with f_len = 1, f_open = 0, f_sp = 1, f_yoon = 1, so not every
feature value of the sentinel vector is 0. -/
theorem C4_counterexample :
    extract_features [] = ⟨1, 0, 1, 1, 0, []⟩ ∧ (1:ℚ) ≠ 0 := by
  constructor
  · unfold extract_features
    norm_num [to_hira, nfkc, kdDecompAll, composeAll, kana_to_moras, safe_ratio, f_len_from_M]
  · norm_num

/-- C4 (amended): on every input whose normalized form is empty, feature
extraction returns a fixed sentinel without raising, but the sentinel is not
all zeros everywhere: extract_features returns f_len = 1, f_open = 0,
f_sp = 1, f_yoon = 1 with M = 0, while the plane scorer returns the all zero
feature dictionary with score 0. -/
theorem C4_amended_empty_input :
    (∀ name, to_hira name = [] → extract_features name = ⟨1, 0, 1, 1, 0, []⟩) ∧
    (∀ name, plane.normalize_kana name = [] →
      plane.calculate_epi_plane name =
        [("f_len", .num 0), ("f_open", .num 0), ("f_sp", .num 0), ("f_yoon", .num 0),
         ("f_voiced", .num 0), ("f_semi", .num 0), ("f_vowel", .num 0),
         ("f_density", .num 0), ("EPI_Score", .num 0), ("M", .num 0), ("kana", .str [])]) := by
  constructor
  · intro name hname
    unfold extract_features
    rw [hname]
    norm_num [kana_to_moras, safe_ratio, f_len_from_M]
  · intro name hk
    unfold plane.calculate_epi_plane
    rw [hk]
    simp [plane.analyze_mora_phoneme]

/-- Witness for the amended C4 theorem at the empty input. -/
theorem C4_amended_empty_input_witness :
    (to_hira [] = [] ∧ plane.normalize_kana [] = []) ∧
    extract_features [] = ⟨1, 0, 1, 1, 0, []⟩ ∧
    plane.calculate_epi_plane [] =
      [("f_len", .num 0), ("f_open", .num 0), ("f_sp", .num 0), ("f_yoon", .num 0),
       ("f_voiced", .num 0), ("f_semi", .num 0), ("f_vowel", .num 0),
       ("f_density", .num 0), ("EPI_Score", .num 0), ("M", .num 0), ("kana", .str [])] :=
  ⟨⟨rfl, rfl⟩, C4_amended_empty_input.1 [] rfl, C4_amended_empty_input.2 [] rfl⟩

end NamingEval
